import Mathlib

/-!
Verification of the thread-state reconciliation engine of the
Email-ticket-bookingsystem repository (`main.py`, `sheets_handler.py`,
`gmail_handler.py`), via a shallow embedding of the relevant Python code
into Lean.  Machine integers are modelled as `Nat`/`Int`, Python dicts as
association lists with overwrite semantics, the Google-Sheets worksheet as
a list of rows, and the per-cycle side effects as an explicit trace of
atomic effects applied to an engine state.
-/

namespace EmailTicket

/-- Lower-case a character (model of Python `str.lower` on the ASCII
range that email addresses use). -/
def lowerChar (c : Char) : Char := c.toLower

/-- Model of Python `str.lower`. -/
def lowerStr (s : String) : String := String.mk (s.data.map lowerChar)

/-! ### `extract_email` (gmail_handler.py lines 50-53)

```python
def extract_email(value):
    m = re.search(r"<(.+?)>", value)
    return m.group(1).lower() if m else value.lower()
```

The regex `<(.+?)>` matches, at the leftmost possible start, a `<`
followed by one-or-more non-newline characters (lazily) and a `>`.
`matchAfterLt` models the attempt to complete a match right after a `<`:
the first character becomes content unless it is a newline (an immediate
`>` cannot close the match because the group needs at least one
character), and from the second character on the first `>` closes the
match while a newline aborts it. -/

def matchGo (acc : List Char) : List Char → Option (List Char)
  | [] => none
  | c :: rest =>
    if c = '>' then some acc.reverse
    else if c = '\n' then none
    else matchGo (c :: acc) rest

def matchAfterLt : List Char → Option (List Char)
  | [] => none
  | c :: rest => if c = '\n' then none else matchGo [c] rest

/-- Model of `re.search(r"<(.+?)>", value)`: scan left to right for a
`<` whose match attempt succeeds, returning the group. -/
def searchAngle : List Char → Option (List Char)
  | [] => none
  | c :: rest =>
    if c = '<' then
      match matchAfterLt rest with
      | some g => some g
      | none => searchAngle rest
    else searchAngle rest

/-- `extract_email` from gmail_handler.py. -/
def extract_email (value : String) : String :=
  match searchAngle value.data with
  | some g => lowerStr (String.mk g)
  | none => lowerStr value

example : extract_email "Alice <Bob@X.com>" = "bob@x.com" := by decide
example : extract_email " A " = " a " := by decide
example : extract_email "a<>b" = "a<>b" := by decide

lemma matchGo_eq (mid suf : List Char) (hgt : '>' ∉ mid) (hnl : '\n' ∉ mid) :
    ∀ acc, matchGo acc (mid ++ '>' :: suf) = some (acc.reverse ++ mid) := by
  induction mid with
  | nil => intro acc; simp [matchGo]
  | cons c rest ih =>
    intro acc
    have hc1 : c ≠ '>' := fun h => hgt (h ▸ List.mem_cons_self c rest)
    have hc2 : c ≠ '\n' := fun h => hnl (h ▸ List.mem_cons_self c rest)
    have hr1 : '>' ∉ rest := fun h => hgt (List.mem_cons_of_mem c h)
    have hr2 : '\n' ∉ rest := fun h => hnl (List.mem_cons_of_mem c h)
    simp only [List.cons_append, matchGo, if_neg hc1, if_neg hc2, List.append_eq]
    rw [ih hr1 hr2 (c :: acc)]
    simp

lemma matchAfterLt_eq (addr suf : List Char) (hne : addr ≠ [])
    (hgt : '>' ∉ addr) (hnl : '\n' ∉ addr) :
    matchAfterLt (addr ++ '>' :: suf) = some addr := by
  cases addr with
  | nil => exact absurd rfl hne
  | cons a rest =>
    have ha : a ≠ '\n' := fun h => hnl (h ▸ List.mem_cons_self a rest)
    have hr1 : '>' ∉ rest := fun h => hgt (List.mem_cons_of_mem a h)
    have hr2 : '\n' ∉ rest := fun h => hnl (List.mem_cons_of_mem a h)
    simp only [List.cons_append, matchAfterLt, if_neg ha]
    rw [matchGo_eq rest suf hr1 hr2 [a]]
    simp

lemma searchAngle_eq (pre tail : List Char) (hlt : '<' ∉ pre) (g : List Char)
    (h : matchAfterLt tail = some g) :
    searchAngle (pre ++ '<' :: tail) = some g := by
  induction pre with
  | nil => simp [searchAngle, h]
  | cons c rest ih =>
    have hc : c ≠ '<' := fun hh => hlt (hh ▸ List.mem_cons_self c rest)
    have hr : '<' ∉ rest := fun hh => hlt (List.mem_cons_of_mem c hh)
    simp only [List.cons_append, searchAngle, if_neg hc]
    exact ih hr

/-- C9 (corrected): `extract_email` is a total function; on an input of
shape `pre ++ "<" ++ addr ++ ">" ++ suf` (no `<` in the display part, a
non-empty address containing neither `>` nor a newline) it returns the
bracketed address lower-cased, and on any input in which the regex finds
no angle-bracket form it returns the lower-cased input — *not* trimmed:
the code applies only `.lower()` to the raw value in the fallback. -/
theorem extract_email_correct (pre addr suf : String)
    (h1 : '<' ∉ pre.data) (h2 : addr.data ≠ [])
    (h3 : '>' ∉ addr.data) (h4 : '\n' ∉ addr.data) :
    extract_email (pre ++ "<" ++ addr ++ ">" ++ suf) = lowerStr addr ∧
    ∀ s : String, searchAngle s.data = none → extract_email s = lowerStr s := by
  constructor
  · have hdata : (pre ++ "<" ++ addr ++ ">" ++ suf).data
        = pre.data ++ '<' :: (addr.data ++ '>' :: suf.data) := by
      simp [String.data_append]
    rw [extract_email, hdata,
      searchAngle_eq pre.data _ h1 addr.data
        (matchAfterLt_eq addr.data suf.data h2 h3 h4)]
  · intro s hs
    rw [extract_email, hs]

/-- C9 counterexample: the claim says the fallback returns the *trimmed*
and lower-cased input, but the code does not trim — on `" A "` it
returns `" a "`, not `"a"`. -/
theorem extract_email_no_trim_cex :
    extract_email " A " = " a " ∧ extract_email " A " ≠ "a" := by decide

/-- Witness for `extract_email_correct` at a concrete header. -/
theorem extract_email_correct_witness :
    extract_email ("Alice Smith " ++ "<" ++ "Alice@Example.COM" ++ ">" ++ "") =
      lowerStr "Alice@Example.COM" ∧
    extract_email "BARE@x.Y" = lowerStr "BARE@x.Y" := by
  have h := extract_email_correct "Alice Smith " "Alice@Example.COM" ""
    (by decide) (by decide) (by decide) (by decide)
  exact ⟨h.1, h.2 "BARE@x.Y" (by decide)⟩

/-! ### Decimal formatting and `get_next_ticket_id` (sheets_handler.py 38-50)

```python
def get_next_ticket_id(sheet):
    config_sheet = sheet.worksheet("Ticket_Config")
    last_ticket = int(config_sheet.acell("B1").value or 0)
    next_ticket = last_ticket + 1
    config_sheet.update(range_name="B1", values=[[next_ticket]])
    return f"TCK-{next_ticket:06d}"
```

The counter cell is modelled as a `Nat`; Python `%d` formatting is
modelled by `decChars` (most-significant-digit first, fuel-based so the
kernel can evaluate it), and `%06d` zero-padding by `padChars`. -/

def digitToChar (d : Nat) : Char := Char.ofNat (48 + d)

def charToDigit (c : Char) : Nat := c.toNat - 48

def isDigitChar (c : Char) : Prop := 48 ≤ c.toNat ∧ c.toNat ≤ 57

instance (c : Char) : Decidable (isDigitChar c) := by unfold isDigitChar; infer_instance

def decCharsGo : Nat → Nat → List Char
  | 0, _ => []
  | fuel + 1, n =>
    if n = 0 then [] else decCharsGo fuel (n / 10) ++ [digitToChar (n % 10)]

/-- Decimal digits of `n`, most significant first (model of Python `"%d" % n`). -/
def decChars (n : Nat) : List Char := if n = 0 then ['0'] else decCharsGo n n

/-- Zero-pad a digit string on the left to width `w` (model of `%0wd`). -/
def padChars (w : Nat) (l : List Char) : List Char :=
  List.replicate (w - l.length) '0' ++ l

/-- The string `f"TCK-{n:06d}"`. -/
def ticketIdStr (n : Nat) : String := "TCK-" ++ String.mk (padChars 6 (decChars n))

/-- `get_next_ticket_id`: read the counter, increment, write it back,
return the formatted id.  Result: (returned id, new counter value). -/
def get_next_ticket_id (counter : Nat) : String × Nat :=
  (ticketIdStr (counter + 1), counter + 1)

/-- Model of Python `int()` on a string of decimal digits. -/
def parseNatChars (l : List Char) : Nat :=
  l.foldl (fun acc c => acc * 10 + charToDigit c) 0

example : ticketIdStr 3 = "TCK-000003" := by decide
example : ticketIdStr 1234567 = "TCK-1234567" := by decide

lemma parseNatChars_append_digit (l : List Char) (c : Char) :
    parseNatChars (l ++ [c]) = parseNatChars l * 10 + charToDigit c := by
  simp [parseNatChars, List.foldl_append]

lemma parseNatChars_decCharsGo : ∀ fuel n, n ≤ fuel →
    parseNatChars (decCharsGo fuel n) = n := by
  intro fuel
  induction fuel with
  | zero => intro n hn; interval_cases n; simp [decCharsGo, parseNatChars]
  | succ f ih =>
    intro n hn
    rcases Nat.eq_zero_or_pos n with h0 | hpos
    · simp [decCharsGo, h0, parseNatChars]
    · have hne : n ≠ 0 := Nat.pos_iff_ne_zero.mp hpos
      have hdiv : n / 10 ≤ f := by
        have h2 := Nat.div_lt_self hpos (by norm_num : 1 < 10)
        omega
      have hc : charToDigit (digitToChar (n % 10)) = n % 10 := by
        have hall : ∀ d, d < 10 → charToDigit (digitToChar d) = d := by decide
        exact hall (n % 10) (Nat.mod_lt n (by norm_num))
      rw [decCharsGo, if_neg hne, parseNatChars_append_digit, ih (n / 10) hdiv, hc]
      have h3 := Nat.div_add_mod n 10
      omega

lemma parseNatChars_decChars (n : Nat) : parseNatChars (decChars n) = n := by
  rcases Nat.eq_zero_or_pos n with h0 | hpos
  · simp [decChars, h0]; decide
  · rw [decChars, if_neg (Nat.pos_iff_ne_zero.mp hpos)]
    exact parseNatChars_decCharsGo n n le_rfl

lemma parseNatChars_pad (k : Nat) (l : List Char) :
    parseNatChars (List.replicate k '0' ++ l) = parseNatChars l := by
  induction k with
  | zero => simp
  | succ m ih =>
    have : List.replicate (m + 1) '0' ++ l = '0' :: (List.replicate m '0' ++ l) := by
      simp [List.replicate_succ]
    rw [this]
    simpa [parseNatChars, charToDigit] using ih

lemma ticketIdStr_injective : Function.Injective ticketIdStr := by
  have key : ∀ n, parseNatChars ((ticketIdStr n).data.drop 4) = n := by
    intro n
    have hdata : (ticketIdStr n).data = "TCK-".data ++ padChars 6 (decChars n) := by
      simp [ticketIdStr, String.data_append]
    rw [hdata]
    have : ("TCK-".data ++ padChars 6 (decChars n)).drop 4 = padChars 6 (decChars n) := by
      simp
    rw [this, padChars, parseNatChars_pad, parseNatChars_decChars]
  intro a b h
  have := key a
  rw [h, key b] at this
  exact this.symm

/-- C6: starting from counter value 0, `N` sequential calls of
`get_next_ticket_id` return exactly `TCK-000001 … ` formatted from the
counter values `1 … N`, in order, with no repeats and no gaps. -/
def allocIds : Nat → Nat → List String
  | 0, _ => []
  | n + 1, c => (get_next_ticket_id c).1 :: allocIds n (get_next_ticket_id c).2

lemma allocIds_formula : ∀ n c, allocIds n c =
    (List.range n).map (fun i => ticketIdStr (c + i + 1)) := by
  intro n
  induction n with
  | zero => intro c; rfl
  | succ m ih =>
    intro c
    show (get_next_ticket_id c).1 :: allocIds m (get_next_ticket_id c).2 = _
    simp only [get_next_ticket_id]
    rw [ih (c + 1), List.range_succ_eq_map]
    simp only [List.map_cons, List.map_map, Function.comp]
    congr 1
    apply List.map_congr_left
    intro i _
    show ticketIdStr (c + 1 + i + 1) = ticketIdStr (c + (i + 1) + 1)
    exact congrArg ticketIdStr (by ring)

/-- C6: under sequential (non-racing) execution from counter 0, the `N`
allocated ticket ids are exactly `ticketIdStr 1 … ticketIdStr N`
(format `TCK-%06d`) in order, with no repeats. -/
theorem ticket_ids_sequential (N : Nat) :
    allocIds N 0 = (List.range N).map (fun i => ticketIdStr (i + 1)) ∧
    (allocIds N 0).Nodup := by
  have hform : allocIds N 0 = (List.range N).map (fun i => ticketIdStr (i + 1)) := by
    rw [allocIds_formula]
    simp
  refine ⟨hform, ?_⟩
  rw [hform]
  have hinj : Function.Injective (fun i => ticketIdStr (i + 1)) := by
    intro a b h
    have := ticketIdStr_injective h
    omega
  exact List.Nodup.map hinj (List.nodup_range N)

/-! ### Association lists with Python-dict semantics -/

/-- `d[k] = v` on a Python dict modelled as an insertion-ordered
association list: overwrite the existing binding in place, else append. -/
def mapSet {α : Type} : List (String × α) → String → α → List (String × α)
  | [], k, v => [(k, v)]
  | p :: rest, k, v => if p.1 = k then (k, v) :: rest else p :: mapSet rest k v

/-- `d.get(k)` on a Python dict. -/
def mapGet? {α : Type} : List (String × α) → String → Option α
  | [], _ => none
  | p :: rest, k => if p.1 = k then some p.2 else mapGet? rest k

lemma mapSet_fresh {α : Type} (m : List (String × α)) (k : String) (v : α)
    (h : ∀ p ∈ m, p.1 ≠ k) : mapSet m k v = m ++ [(k, v)] := by
  induction m with
  | nil => rfl
  | cons p rest ih =>
    have hp : p.1 ≠ k := h p (List.mem_cons_self p rest)
    rw [mapSet, if_neg hp, ih (fun q hq => h q (List.mem_cons_of_mem p hq))]
    rfl

lemma mapGet?_mapSet_self {α : Type} (m : List (String × α)) (k : String) (v : α) :
    mapGet? (mapSet m k v) k = some v := by
  induction m with
  | nil => simp [mapSet, mapGet?]
  | cons p rest ih =>
    by_cases hp : p.1 = k
    · simp [mapSet, hp, mapGet?]
    · simp [mapSet, hp, mapGet?, ih]

/-! ### Watermark file persistence (main.py lines 66-82)

```python
def load_thread_state_from_file():
    state = {}
    if os.path.exists(THREAD_STATE_FILE):
        with open(THREAD_STATE_FILE, "r") as f:
            for line in f:
                if "|" in line:
                    tid, ts = line.strip().split("|")
                    state[tid] = int(ts)
    return state

def save_thread_state_to_file(state):
    with open(THREAD_STATE_FILE, "w") as f:
        for tid, ts in state.items():
            f.write(f"{tid}|{ts}\n")
```

The file is modelled as its character content.  `str.strip` is modelled
on the ASCII whitespace characters Python strips, `str.split("|")` by
`splitOnChar '|'`, line iteration by `splitOnChar '\n'`, `int()` (on the
canonical literals `str()` emits: optional `-` sign followed by decimal
digits) by `parseIntChars`, and a Python exception inside the load (the
unpacking or `int()` failing) by `none`. -/

def isPySpace (c : Char) : Bool :=
  c.toNat = 32 || c.toNat = 9 || c.toNat = 10 || c.toNat = 13 ||
  c.toNat = 11 || c.toNat = 12

def stripEnd (l : List Char) : List Char := (l.reverse.dropWhile isPySpace).reverse

/-- Model of Python `str.strip()`. -/
def stripChars (l : List Char) : List Char := stripEnd (l.dropWhile isPySpace)

/-- Split a character list at every occurrence of `sep`
(model of Python `str.split(sep)` for a one-character separator). -/
def splitOnChar (sep : Char) : List Char → List (List Char)
  | [] => [[]]
  | c :: rest =>
    if c = sep then [] :: splitOnChar sep rest
    else
      match splitOnChar sep rest with
      | g :: gs => (c :: g) :: gs
      | [] => [[c]]

/-- Decimal representation of a Python `int` (model of `str(ts)`). -/
def intRepr (v : Int) : List Char :=
  if v < 0 then '-' :: decChars v.natAbs else decChars v.toNat

def allDigits (l : List Char) : Bool := l.all (fun c => decide (isDigitChar c))

/-- Model of Python `int()` on the canonical integer literals. -/
def parseIntChars (l : List Char) : Option Int :=
  match l with
  | [] => none
  | c :: rest =>
    if c = '-' then
      if rest ≠ [] ∧ allDigits rest then some (-(parseNatChars rest : Int)) else none
    else if allDigits (c :: rest) then some ((parseNatChars (c :: rest) : Int)) else none

def saveLineChars (tid : String) (v : Int) : List Char :=
  tid.data ++ '|' :: (intRepr v ++ ['\n'])

def saveThreadStateChars : List (String × Int) → List Char
  | [] => []
  | p :: rest => saveLineChars p.1 p.2 ++ saveThreadStateChars rest

/-- `save_thread_state_to_file` (main.py 78-82), as the file content written. -/
def save_thread_state_to_file (st : List (String × Int)) : String :=
  String.mk (saveThreadStateChars st)

/-- Processing of one line of the state file: `line.strip().split("|")`
followed by `int(ts)`; `none` models the `ValueError` raised when the
unpacking or the conversion fails. -/
def loadLine (l : List Char) : Option (String × Int) :=
  match splitOnChar '|' (stripChars l) with
  | [a, b] => (parseIntChars b).map (fun v => (String.mk a, v))
  | _ => none

def loadLinesGo : List (List Char) → List (String × Int) → Option (List (String × Int))
  | [], acc => some acc
  | l :: ls, acc =>
    if '|' ∈ l then
      match loadLine l with
      | some (k, v) => loadLinesGo ls (mapSet acc k v)
      | none => none
    else loadLinesGo ls acc

/-- `load_thread_state_from_file` (main.py 66-75) applied to a file content. -/
def load_thread_state_from_file (content : String) : Option (List (String × Int)) :=
  loadLinesGo (splitOnChar '\n' content.data) []

example :
    load_thread_state_from_file (save_thread_state_to_file [("t1", 5), ("t2", -3)]) =
      some [("t1", 5), ("t2", -3)] := by decide

lemma decCharsGo_digits : ∀ fuel n, ∀ c ∈ decCharsGo fuel n, isDigitChar c := by
  intro fuel
  induction fuel with
  | zero => intro n c hc; simp [decCharsGo] at hc
  | succ f ih =>
    intro n c hc
    rw [decCharsGo] at hc
    by_cases h0 : n = 0
    · simp [h0] at hc
    · rw [if_neg h0] at hc
      rcases List.mem_append.mp hc with h | h
      · exact ih (n / 10) c h
      · have hd : ∀ d, d < 10 → isDigitChar (digitToChar d) := by decide
        rcases List.mem_singleton.mp h with rfl
        exact hd (n % 10) (Nat.mod_lt n (by norm_num))

lemma decChars_digits (n : Nat) : ∀ c ∈ decChars n, isDigitChar c := by
  intro c hc
  rw [decChars] at hc
  by_cases h0 : n = 0
  · rw [if_pos h0] at hc
    rcases List.mem_singleton.mp hc with rfl
    decide
  · rw [if_neg h0] at hc
    exact decCharsGo_digits n n c hc

lemma digit_props {c : Char} (h : isDigitChar c) :
    c ≠ '\n' ∧ c ≠ '|' ∧ c ≠ '-' ∧ isPySpace c = false := by
  obtain ⟨h1, h2⟩ := h
  refine ⟨?_, ?_, ?_, ?_⟩
  · intro he; rw [he] at h1; exact absurd h1 (by decide)
  · intro he; rw [he] at h1 h2; exact absurd h2 (by decide)
  · intro he; rw [he] at h1; exact absurd h1 (by decide)
  · simp only [isPySpace, Bool.or_eq_false_iff, decide_eq_false_iff_not]
    omega

lemma decChars_concat (n : Nat) :
    ∃ pre d, decChars n = pre ++ [d] ∧ isDigitChar d := by
  by_cases h0 : n = 0
  · exact ⟨[], '0', by simp [decChars, h0], by decide⟩
  · obtain ⟨f, rfl⟩ : ∃ f, n = f + 1 := ⟨n - 1, by omega⟩
    refine ⟨decCharsGo f ((f + 1) / 10), digitToChar ((f + 1) % 10), ?_, ?_⟩
    · rw [decChars, if_neg h0, decCharsGo, if_neg h0]
    · have hd : ∀ d, d < 10 → isDigitChar (digitToChar d) := by decide
      exact hd _ (Nat.mod_lt _ (by norm_num))

lemma intRepr_concat (v : Int) :
    ∃ pre d, intRepr v = pre ++ [d] ∧ isDigitChar d := by
  rw [intRepr]
  by_cases hv : v < 0
  · obtain ⟨pre, d, he, hd⟩ := decChars_concat v.natAbs
    exact ⟨'-' :: pre, d, by simp [hv, he], hd⟩
  · obtain ⟨pre, d, he, hd⟩ := decChars_concat v.toNat
    exact ⟨pre, d, by simp [hv, he], hd⟩

lemma intRepr_chars (v : Int) : ∀ c ∈ intRepr v, isDigitChar c ∨ c = '-' := by
  intro c hc
  rw [intRepr] at hc
  by_cases hv : v < 0
  · rw [if_pos hv] at hc
    rcases List.mem_cons.mp hc with rfl | h
    · exact Or.inr rfl
    · exact Or.inl (decChars_digits _ c h)
  · rw [if_neg hv] at hc
    exact Or.inl (decChars_digits _ c hc)

lemma intRepr_no_nl (v : Int) : '\n' ∉ intRepr v := by
  intro h
  rcases intRepr_chars v '\n' h with hd | hd
  · exact (digit_props hd).1 rfl
  · exact absurd hd (by decide)

lemma intRepr_no_bar (v : Int) : '|' ∉ intRepr v := by
  intro h
  rcases intRepr_chars v '|' h with hd | hd
  · exact (digit_props hd).2.1 rfl
  · exact absurd hd (by decide)

lemma stripEnd_concat (l : List Char) (d : Char) (hd : isPySpace d = false) :
    stripEnd (l ++ [d]) = l ++ [d] := by
  rw [stripEnd, List.reverse_append]
  simp [List.dropWhile_cons, hd]

lemma stripChars_line (c : Char) (krest : List Char) (v : Int)
    (hc : isPySpace c = false) :
    stripChars ((c :: krest) ++ '|' :: intRepr v) = (c :: krest) ++ '|' :: intRepr v := by
  obtain ⟨pre, d, he, hd⟩ := intRepr_concat v
  rw [stripChars, List.cons_append, List.dropWhile_cons, if_neg (by simp [hc])]
  have hshape : (c :: krest) ++ '|' :: intRepr v
      = ((c :: krest) ++ '|' :: pre) ++ [d] := by
    rw [he]; simp
  rw [← List.cons_append, hshape, stripEnd_concat _ d (digit_props hd).2.2.2, ← hshape]

lemma splitOnChar_no_sep (sep : Char) (l : List Char) (h : sep ∉ l) :
    splitOnChar sep l = [l] := by
  induction l with
  | nil => rfl
  | cons c rest ih =>
    have hc : c ≠ sep := fun he => h (he ▸ List.mem_cons_self c rest)
    rw [splitOnChar, if_neg hc, ih (fun hh => h (List.mem_cons_of_mem c hh))]

lemma splitOnChar_append (sep : Char) (a rest : List Char) (h : sep ∉ a) :
    splitOnChar sep (a ++ sep :: rest) = a :: splitOnChar sep rest := by
  induction a with
  | nil => simp [splitOnChar]
  | cons c a' ih =>
    have hc : c ≠ sep := fun he => h (he ▸ List.mem_cons_self c a')
    rw [List.cons_append, splitOnChar, if_neg hc,
      ih (fun hh => h (List.mem_cons_of_mem c hh))]

lemma allDigits_of (l : List Char) (h : ∀ c ∈ l, isDigitChar c) :
    allDigits l = true := by
  rw [allDigits, List.all_eq_true]
  intro c hc
  exact decide_eq_true (h c hc)

lemma parse_intRepr (v : Int) : parseIntChars (intRepr v) = some v := by
  by_cases hv : v < 0
  · have he : intRepr v = '-' :: decChars v.natAbs := by rw [intRepr, if_pos hv]
    have hne : decChars v.natAbs ≠ [] := by
      obtain ⟨pre, d, hp, _⟩ := decChars_concat v.natAbs
      simp [hp]
    rw [he, parseIntChars, if_pos rfl,
      if_pos ⟨hne, allDigits_of _ (decChars_digits v.natAbs)⟩,
      parseNatChars_decChars]
    congr 1
    omega
  · have he : intRepr v = decChars v.toNat := by rw [intRepr, if_neg hv]
    rcases hh : decChars v.toNat with _ | ⟨c, rest⟩
    · obtain ⟨pre, d, hp, _⟩ := decChars_concat v.toNat
      rw [hp] at hh
      simp at hh
    · have hcd : isDigitChar c := decChars_digits v.toNat c (by rw [hh]; exact List.mem_cons_self c rest)
      have hnd : c ≠ '-' := (digit_props hcd).2.2.1
      rw [he, hh, parseIntChars, if_neg hnd,
        if_pos (by rw [← hh]; exact allDigits_of _ (decChars_digits v.toNat)),
        ← hh, parseNatChars_decChars]
      congr 1
      omega

/-- Well-formedness of a persisted thread-id key, matching the claim:
non-empty, no `|`, no newline, no leading or trailing whitespace. -/
def keyOK (s : String) : Prop :=
  s.data ≠ [] ∧ '|' ∉ s.data ∧ '\n' ∉ s.data ∧
  isPySpace (s.data.headD '0') = false ∧ isPySpace (s.data.getLastD '0') = false

instance (s : String) : Decidable (keyOK s) := by unfold keyOK; infer_instance

lemma loadLine_save (key : String) (v : Int) (hk : keyOK key) :
    loadLine (key.data ++ '|' :: intRepr v) = some (key, v) := by
  obtain ⟨hne, hbar, _, hhead, _⟩ := hk
  rcases hd : key.data with _ | ⟨c, krest⟩
  · exact absurd hd hne
  · have hc : isPySpace c = false := by rw [hd] at hhead; simpa using hhead
    rw [hd] at hbar
    rw [loadLine, stripChars_line c krest v hc,
      splitOnChar_append '|' (c :: krest) (intRepr v) hbar,
      splitOnChar_no_sep '|' (intRepr v) (intRepr_no_bar v)]
    simp only [parse_intRepr, Option.map_some]
    have : String.mk (c :: krest) = key := by rw [← hd]
    rw [this]
    rfl

lemma loadLinesGo_save : ∀ (st acc : List (String × Int)),
    (∀ p ∈ st, keyOK p.1) → (st.map Prod.fst).Nodup →
    (∀ p ∈ st, ∀ q ∈ acc, q.1 ≠ p.1) →
    loadLinesGo (splitOnChar '\n' (saveThreadStateChars st)) acc = some (acc ++ st) := by
  intro st
  induction st with
  | nil => intro acc _ _ _; simp [saveThreadStateChars, splitOnChar, loadLinesGo]
  | cons p rest ih =>
    intro acc hk hnd hfresh
    have hkp : keyOK p.1 := hk p (List.mem_cons_self p rest)
    have hshape : saveThreadStateChars (p :: rest)
        = (p.1.data ++ '|' :: intRepr p.2) ++ '\n' :: saveThreadStateChars rest := by
      rw [saveThreadStateChars, saveLineChars]
      simp
    have hnonl : '\n' ∉ p.1.data ++ '|' :: intRepr p.2 := by
      intro hmem
      rcases List.mem_append.mp hmem with h | h
      · exact hkp.2.2.1 h
      · rcases List.mem_cons.mp h with he | h
        · exact absurd he (by decide)
        · exact intRepr_no_nl p.2 h
    rw [hshape, splitOnChar_append '\n' _ _ hnonl, loadLinesGo,
      if_pos (List.mem_append.mpr (Or.inr (List.mem_cons_self _ _))),
      loadLine_save p.1 p.2 hkp]
    have hset : mapSet acc p.1 p.2 = acc ++ [p] := by
      rw [mapSet_fresh acc p.1 p.2 (fun q hq => hfresh p (List.mem_cons_self p rest) q hq)]
    show loadLinesGo (splitOnChar '\n' (saveThreadStateChars rest)) (mapSet acc p.1 p.2)
        = some (acc ++ p :: rest)
    rw [hset, ih (acc ++ [p]) (fun q hq => hk q (List.mem_cons_of_mem p hq))
      (by simpa using (List.nodup_cons.mp (by simpa using hnd)).2) ?_]
    · simp
    · intro q hq r hr
      rcases List.mem_append.mp hr with h | h
      · exact hfresh q (List.mem_cons_of_mem p hq) r h
      · have he2 : r = p := List.mem_singleton.mp h
        have hp1 : p.1 ∉ rest.map Prod.fst := (List.nodup_cons.mp (by simpa using hnd)).1
        rw [he2]
        intro he
        exact hp1 (by rw [he]; exact List.mem_map.mpr ⟨q, hq, rfl⟩)

/-- C10: saving the watermark map with `save_thread_state_to_file` and
loading it back with `load_thread_state_from_file` returns a map equal
to the original, for every map with distinct keys that are non-empty
strings containing no `|`, no newline and no leading/trailing
whitespace, and integer values. -/
theorem thread_state_roundtrip (st : List (String × Int))
    (hk : ∀ p ∈ st, keyOK p.1) (hnd : (st.map Prod.fst).Nodup) :
    load_thread_state_from_file (save_thread_state_to_file st) = some st := by
  rw [load_thread_state_from_file, save_thread_state_to_file]
  have : (String.mk (saveThreadStateChars st)).data = saveThreadStateChars st := rfl
  rw [this, loadLinesGo_save st [] hk hnd (by simp)]
  simp

/-- Witness for `thread_state_roundtrip` at a concrete two-entry map
(including a negative value). -/
theorem thread_state_roundtrip_witness :
    load_thread_state_from_file
        (save_thread_state_to_file [("thread-a", 1700000000), ("b 2", -7)]) =
      some [("thread-a", 1700000000), ("b 2", -7)] :=
  thread_state_roundtrip [("thread-a", 1700000000), ("b 2", -7)]
    (by decide) (by decide)

/-! ### Ticket rows (sheets_handler.py 53-70) -/

/-- One data row of the "Email log" worksheet, in the column order
produced by `create_ticket_row`: ticket_id, thread_id, timestamp,
from_email, subject, status, new-sender flag, link.  The timestamp cell
is modelled as `some` epoch-seconds when it parses with
`"%Y-%m-%d %H:%M:%S"` and `none` when it does not. -/
structure Row where
  ticket_id : String
  thread_id : String
  timestamp : Option Nat
  from_email : String
  subject : String
  status : String
  new_sender : String
  link : String
deriving Repr, DecidableEq

/-- `create_ticket_row`; `now` models `datetime.now()` in epoch seconds. -/
def create_ticket_row (now : Nat) (ticket_id thread_id from_email subject status : String)
    (new_sender : Bool) : Row :=
  { ticket_id := ticket_id
    thread_id := thread_id
    timestamp := some now
    from_email := from_email
    subject := subject
    status := status
    new_sender := if new_sender then "Yes" else "No"
    link := "=HYPERLINK(\"https://mail.google.com/mail/u/0/#inbox/" ++ thread_id
      ++ "\",\"Open Mail\")" }

/-! ### Auto-Closer (main.py 142-204, `check_and_close_stale_tickets`)

The code snapshots all rows (`get_all_values`), then iterates the
snapshot with `enumerate(all_rows[1:], start=2)` while mutating the live
sheet: `delete_rows(i)` / `update(f"A{i}:H{i}", [row])` use the
*snapshot* index `i`.  The float comparison
`(current_time - ticket_timestamp) / 3600 >= AUTO_CLOSE_HOURS` is exact
for integer inputs and is modelled as
`now - ts >= hours * 3600` over `Int`. -/

def staleQualifies (hours now : Nat) (r : Row) : Bool :=
  if r.status ≠ "Awaiting customer reply" then false
  else
    match r.timestamp with
    | none => false
    | some ts => (hours : Int) * 3600 ≤ (now : Int) - (ts : Int)

/-- gspread `worksheet.delete_rows(i)` on the live sheet: sheet row `i`
is data row `i - 2` (row 1 is the header).  Out-of-range is a no-op in
the model (the API would raise). -/
def delete_rows (live : List Row) (i : Nat) : List Row := live.eraseIdx (i - 2)

/-- `worksheet.update(f"A{i}:H{i}", [row])` on the live sheet. -/
def update_row_at (live : List Row) (i : Nat) (r : Row) : List Row := live.set (i - 2) r

def autoCloseGo (action : String) (hours now : Nat) :
    List Row → Nat → List Row → List Row
  | [], _, live => live
  | r :: rest, i, live =>
    if staleQualifies hours now r then
      if action = "delete" then
        autoCloseGo action hours now rest (i + 1) (delete_rows live i)
      else
        autoCloseGo action hours now rest (i + 1)
          (update_row_at live i { r with status := "Closed - No customer response" })
    else autoCloseGo action hours now rest (i + 1) live

/-- `check_and_close_stale_tickets`, as its effect on the data rows of
the main worksheet. -/
def check_and_close_stale_tickets (action : String) (hours now : Nat)
    (rows : List Row) : List Row :=
  autoCloseGo action hours now rows 2 rows

def crow1 : Row :=
  { ticket_id := "TCK-000001", thread_id := "t1", timestamp := some 0,
    from_email := "a@x", subject := "s1", status := "Awaiting customer reply",
    new_sender := "No", link := "" }

def crow2 : Row :=
  { ticket_id := "TCK-000002", thread_id := "t2", timestamp := some 0,
    from_email := "b@x", subject := "s2", status := "Awaiting customer reply",
    new_sender := "No", link := "" }

def crow3 : Row :=
  { ticket_id := "TCK-000003", thread_id := "t3", timestamp := some 29000,
    from_email := "c@x", subject := "s3", status := "Awaiting admin reply",
    new_sender := "No", link := "" }

/-- C8 (code bug, delete mode): with threshold 6h and `now = 30000`,
rows 2 and 3 of the sheet (`crow1`, `crow2`, both stale
AwaitingCustomerReply) qualify and `crow3` (AwaitingAdminReply) must
never be touched — but the pass deletes sheet row 2 (correct) and then
sheet row 3 of the *shifted* live sheet, which by then holds `crow3`:
the still-stale `crow2` survives and the AwaitingAdminReply row is
removed, instead of the claimed result `[crow3]`. -/
theorem auto_close_delete_shift_bug :
    check_and_close_stale_tickets "delete" 6 30000 [crow1, crow2, crow3] = [crow2] ∧
    staleQualifies 6 30000 crow2 = true ∧
    crow3.status = "Awaiting admin reply" ∧
    staleQualifies 6 30000 crow3 = false := by decide

/-! ### The reconciliation engine (main.py `sync_mail_to_sheet`, lines 208-436)

State owned by one process:
- `tickets` / `counter`: the durable sheet ("Email log" data rows and the
  `Ticket_Config!B1` counter cell);
- `fileState`: the durable `thread_state.txt` watermark map;
- `cache` (`cached_thread_map`) and `knownSenders`: in-memory globals
  that survive an aborted cycle but not the mid-cycle local map;
- `wm` (in `Conf`): the cycle-local `thread_state` dict, loaded from
  the file at cycle start and written back at cycle end.

A cycle is compiled to a chronological trace of atomic effects
(`Eff`); running a prefix of the trace models a cycle interrupted at
that point (sheet writes already issued persist, the in-memory local
map is discarded, the file is untouched unless `saveFile` ran). -/

structure Msg where
  internalDate : Nat
  headers : List (String × String)
deriving Repr, DecidableEq

structure GThread where
  id : String
  messages : List Msg
deriving Repr, DecidableEq

/-- Python dict built by `{x["name"]: x["value"] for x in headers}` then
`.get(k, d)`: the *last* binding of a repeated header wins. -/
def hget (hs : List (String × String)) (k d : String) : String :=
  (hs.foldl (fun acc p => if p.1 = k then some p.2 else acc) none).getD d

/-- `get_last_message` (gmail_handler.py 133-141): the message with the
maximum `internalDate`; Python `max` keeps the first of equal maxima. -/
def get_last_message (th : GThread) : Option Msg :=
  match th.messages with
  | [] => none
  | m :: ms =>
    some (ms.foldl (fun best x => if best.internalDate < x.internalDate then x else best) m)

/-- `is_admin_email` (main.py 85-88). -/
def is_admin_email (admins : List String) (email : String) : Bool :=
  decide (lowerStr email ∈ admins)

/-- `is_new_sender_cached` (main.py 133-139). -/
def is_new_sender_cached (known : List String) (from_email : String) : Bool :=
  decide (lowerStr from_email ∉ known)

def adminLabel : String := "Awaiting_Admin_Reply"

def custLabel : String := "Awaiting_Customer_Reply"

structure EngineState where
  tickets : List Row
  counter : Nat
  cache : List (String × Nat)
  knownSenders : List String
  fileState : List (String × Nat)
deriving Repr, DecidableEq

/-- Engine state plus the cycle-local `thread_state` dict. -/
structure Conf where
  es : EngineState
  wm : List (String × Nat)
deriving Repr, DecidableEq

/-- One atomic externally-visible action of a cycle. -/
inductive Eff where
  | setCounter (n : Nat)
  | setLocalWm (tid : String) (ts : Nat)
  | updateLabels (tid : String) (addL remL : List String)
  | addKnown (email : String)
  | appendRow (r : Row)
  | writeRow (i : Nat) (r : Row)
  | refreshCache
  | setCache (m : List (String × Nat))
  | saveFile
deriving Repr, DecidableEq

def gatGo : List Row → Nat → List (String × Nat) → List (String × Nat)
  | [], _, acc => acc
  | r :: rest, i, acc =>
    gatGo rest (i + 1) (if r.thread_id ≠ "" then mapSet acc r.thread_id i else acc)

/-- `get_all_tickets` (sheets_handler.py 23-35): thread_id → sheet row
number, skipping rows with an empty thread_id, later rows overwriting
earlier ones. -/
def get_all_tickets (rows : List Row) : List (String × Nat) := gatGo rows 2 []

/-- `worksheet.row_values(i)`: sheet row `i` is data row `i - 2`. -/
def rowAt (rows : List Row) (i : Nat) : Option Row := rows[i - 2]?

def applyEff (c : Conf) : Eff → Conf
  | .setCounter n => { c with es := { c.es with counter := n } }
  | .setLocalWm tid ts => { c with wm := mapSet c.wm tid ts }
  | .updateLabels _ _ _ => c
  | .addKnown e =>
    { c with es := { c.es with knownSenders :=
        if e ∈ c.es.knownSenders then c.es.knownSenders else c.es.knownSenders ++ [e] } }
  | .appendRow r => { c with es := { c.es with tickets := c.es.tickets ++ [r] } }
  | .writeRow i r => { c with es := { c.es with tickets := c.es.tickets.set (i - 2) r } }
  | .refreshCache => { c with es := { c.es with cache := get_all_tickets c.es.tickets } }
  | .setCache m => { c with es := { c.es with cache := m } }
  | .saveFile => { c with es := { c.es with fileState := c.wm } }

def runEffs (c : Conf) (l : List Eff) : Conf := l.foldl applyEff c

/-- `thread_state.get(tid, 0)`. -/
def wmGet (m : List (String × Nat)) (k : String) : Nat := (mapGet? m k).getD 0

/-- `ts = int(msg["internalDate"]) // 1000` (main.py 318). -/
def tsOf (m : Msg) : Nat := m.internalDate / 1000

/-- `from_email = extract_email(headers.get("From", ""))` (main.py 325). -/
def fromOf (m : Msg) : String := extract_email (hget m.headers "From" "")

/-- `subject = headers.get("Subject", "No Subject")` (main.py 326). -/
def subjOf (m : Msg) : String := hget m.headers "Subject" "No Subject"

/-- Status derivation (main.py 377-381). -/
def statusFor (admins : List String) (from_email : String) : String :=
  if is_admin_email admins from_email = true then
    "Awaiting customer reply"
  else
    "Awaiting admin reply"

/-- `labels_to_add` (main.py 384). -/
def labelsAdd (status : String) : List String :=
  if status = "Awaiting admin reply" then [adminLabel] else [custLabel]

/-- `labels_to_remove` (main.py 385). -/
def labelsRem (status : String) : List String :=
  if status = "Awaiting admin reply" then [custLabel] else [adminLabel]

/-- Processing of one thread inside the `for thread_info in threads`
loop (main.py 299-417), as the trace of effects it issues.  Reads
happen against `c` because nothing the iteration has already emitted
is read back before it is needed (the second `thread_state[tid] = ts`
at line 417 only overwrites the first with the same value). -/
def procThread (admins : List String) (now : Nat) (c : Conf) (th : GThread) : List Eff :=
  match get_last_message th with
  | none => []
  | some m =>
    if tsOf m ≤ wmGet c.wm th.id then []
    else if (mapGet? c.wm th.id).isSome = true ∧ tsOf m ≤ wmGet c.wm th.id then []
    else if mapGet? c.es.cache th.id = none ∧ is_admin_email admins (fromOf m) = true then
      [.setLocalWm th.id (tsOf m)]
    else
      let status := statusFor admins (fromOf m)
      if mapGet? c.es.cache th.id = none then
        let fmap := get_all_tickets c.es.tickets
        if (mapGet? fmap th.id).isSome = true then [.setCache fmap]
        else
          let alloc := get_next_ticket_id c.es.counter
          let nst := is_new_sender_cached c.es.knownSenders (fromOf m)
          let row := create_ticket_row now alloc.1 th.id (fromOf m) (subjOf m) status nst
          [.setCounter alloc.2, .setLocalWm th.id (tsOf m),
            .updateLabels th.id (labelsAdd status) (labelsRem status)]
            ++ (if nst = true then [.addKnown (lowerStr (fromOf m))] else [])
            ++ [.appendRow row, .refreshCache, .setLocalWm th.id (tsOf m)]
      else
        let row_num := (mapGet? c.es.cache th.id).getD 0
        let ticket_id := ((rowAt c.es.tickets row_num).map Row.ticket_id).getD ""
        let row := create_ticket_row now ticket_id th.id (fromOf m) (subjOf m) status false
        [.updateLabels th.id (labelsAdd status) (labelsRem status),
          .writeRow row_num row, .setLocalWm th.id (tsOf m)]

def procThreads (admins : List String) (now : Nat) : Conf → List GThread → List Eff
  | _, [] => []
  | c, th :: rest =>
    let tr := procThread admins now c th
    tr ++ procThreads admins now (runEffs c tr) rest

/-- Deduplication by thread id, keeping the first occurrence
(main.py 283-295). -/
def dedupeGo (seen : List String) : List GThread → List GThread
  | [] => []
  | t :: rest =>
    if t.id ∈ seen then dedupeGo seen rest else t :: dedupeGo (t.id :: seen) rest

def dedupe (threads : List GThread) : List GThread := dedupeGo [] threads

/-- The effect trace of one reconciliation cycle over the listed
threads: optional wholesale cache refresh (main.py 251-254), the
per-thread loop over the deduplicated listing, and the end-of-cycle
state-file write (main.py 419-422, only when the listing was
non-empty). -/
def cycleTrace (admins : List String) (now : Nat) (refresh : Bool)
    (threads : List GThread) (es : EngineState) : List Eff :=
  let pre : List Eff := if refresh then [.refreshCache] else []
  let c1 := runEffs ⟨es, es.fileState⟩ pre
  let uniq := dedupe threads
  pre ++ procThreads admins now c1 uniq ++ (if uniq.isEmpty then [] else [.saveFile])

/-- Run one complete cycle. -/
def runCycle (admins : List String) (now : Nat) (refresh : Bool)
    (threads : List GThread) (es : EngineState) : EngineState :=
  (runEffs ⟨es, es.fileState⟩ (cycleTrace admins now refresh threads es)).es

/-- One (possibly interrupted) cycle: `cut` is the number of atomic
effects executed before the interruption; a `cut` at or beyond the
trace length is a completed cycle. -/
structure CycleIn where
  now : Nat
  refresh : Bool
  threads : List GThread
  cut : Nat
deriving Repr, DecidableEq

def runCyclePrefix (admins : List String) (es : EngineState) (ci : CycleIn) : EngineState :=
  (runEffs ⟨es, es.fileState⟩
    ((cycleTrace admins ci.now ci.refresh ci.threads es).take ci.cut)).es

def runCycles (admins : List String) : EngineState → List CycleIn → EngineState
  | es, [] => es
  | es, ci :: rest => runCycles admins (runCyclePrefix admins es ci) rest

/-! ### Basic facts about the dict and ticket-map models -/

lemma mapGet?_mapSet_other {α : Type} (m : List (String × α)) (k k' : String) (v : α)
    (h : k ≠ k') : mapGet? (mapSet m k v) k' = mapGet? m k' := by
  induction m with
  | nil => simp [mapSet, mapGet?, h]
  | cons p rest ih =>
    by_cases hp : p.1 = k
    · rw [mapSet, if_pos hp]
      show mapGet? ((k, v) :: rest) k' = mapGet? (p :: rest) k'
      rw [mapGet?, mapGet?, if_neg h, if_neg (hp ▸ h)]
    · rw [mapSet, if_neg hp]
      show mapGet? (p :: mapSet rest k v) k' = mapGet? (p :: rest) k'
      rw [mapGet?, mapGet?, ih]

lemma mapGet?_some_mem {α : Type} (m : List (String × α)) (k : String) (v : α)
    (h : mapGet? m k = some v) : (k, v) ∈ m := by
  induction m with
  | nil => simp [mapGet?] at h
  | cons p rest ih =>
    rw [mapGet?] at h
    by_cases hp : p.1 = k
    · rw [if_pos hp] at h
      injection h with h
      obtain ⟨a, b⟩ := p
      simp only at hp h
      rw [← hp, ← h]
      exact List.mem_cons_self _ _
    · rw [if_neg hp] at h
      exact List.mem_cons_of_mem _ (ih h)

lemma mapSet_mem {α : Type} (m : List (String × α)) (k : String) (v : α) (p : String × α)
    (h : p ∈ mapSet m k v) : p = (k, v) ∨ p ∈ m := by
  induction m with
  | nil => simp [mapSet] at h; exact Or.inl h
  | cons q rest ih =>
    by_cases hq : q.1 = k
    · rw [mapSet, if_pos hq] at h
      rcases List.mem_cons.mp h with h | h
      · exact Or.inl h
      · exact Or.inr (List.mem_cons_of_mem q h)
    · rw [mapSet, if_neg hq] at h
      rcases List.mem_cons.mp h with h | h
      · exact Or.inr (h ▸ List.mem_cons_self q rest)
      · rcases ih h with h | h
        · exact Or.inl h
        · exact Or.inr (List.mem_cons_of_mem q h)

lemma set_same {α : Type} (l : List α) (n : Nat) (a : α) (h : l[n]? = some a) :
    l.set n a = l := by
  obtain ⟨hlt, hget⟩ := List.getElem?_eq_some_iff.mp h
  apply List.ext_getElem?
  intro m
  by_cases hm : n = m
  · subst hm
    rw [List.getElem?_set_self hlt, h]
  · rw [List.getElem?_set_ne hm]

lemma gatGo_valid :
    ∀ (rows full : List Row) (i : Nat) (acc : List (String × Nat)),
      2 ≤ i → rows = full.drop (i - 2) →
      (∀ p ∈ acc, (rowAt full p.2).map Row.thread_id = some p.1) →
      ∀ p ∈ gatGo rows i acc, (rowAt full p.2).map Row.thread_id = some p.1 := by
  intro rows
  induction rows with
  | nil => intro full i acc _ _ hacc p hp; exact hacc p hp
  | cons r rest ih =>
    intro full i acc h2 hdrop hacc p hp
    have hr : full[i - 2]? = some r := by
      have h0 : (full.drop (i - 2))[0]? = some r := by rw [← hdrop]; simp
      rw [List.getElem?_drop] at h0
      simpa using h0
    have hrest : rest = full.drop (i + 1 - 2) := by
      have ht : (full.drop (i - 2)).tail = full.drop (i - 2 + 1) := List.tail_drop full (i - 2)
      rw [← hdrop] at ht
      rw [show i + 1 - 2 = i - 2 + 1 by omega, ← ht]
      rfl
    rw [gatGo] at hp
    refine ih full (i + 1) _ (by omega) hrest ?_ p hp
    intro q hq
    by_cases hrt : r.thread_id ≠ ""
    · rw [if_pos hrt] at hq
      rcases mapSet_mem _ _ _ q hq with h | h
      · rw [h]
        show (rowAt full i).map Row.thread_id = some r.thread_id
        rw [rowAt, hr]
        rfl
      · exact hacc q h
    · rw [if_neg hrt] at hq
      exact hacc q hq

lemma gat_valid (rows : List Row) :
    ∀ p ∈ get_all_tickets rows, (rowAt rows p.2).map Row.thread_id = some p.1 := by
  intro p hp
  exact gatGo_valid rows rows 2 [] (by norm_num) (by simp) (by simp) p hp

lemma gatGo_none :
    ∀ (rows : List Row) (i : Nat) (acc : List (String × Nat)) (tid : String), tid ≠ "" →
      mapGet? (gatGo rows i acc) tid = none →
      (∀ r ∈ rows, r.thread_id ≠ tid) ∧ mapGet? acc tid = none := by
  intro rows
  induction rows with
  | nil => intro i acc tid _ h; exact ⟨by simp, h⟩
  | cons r rest ih =>
    intro i acc tid h0 h
    rw [gatGo] at h
    have hrt : r.thread_id ≠ tid := by
      intro he
      have hne : r.thread_id ≠ "" := he ▸ h0
      rw [if_pos hne, he] at h
      have := (ih (i + 1) (mapSet acc tid i) tid h0 h).2
      rw [mapGet?_mapSet_self] at this
      exact Option.noConfusion this
    constructor
    · intro q hq
      rcases List.mem_cons.mp hq with hq | hq
      · exact hq ▸ hrt
      · by_cases hne : r.thread_id ≠ ""
        · rw [if_pos hne] at h
          exact (ih _ _ tid h0 h).1 q hq
        · rw [if_neg hne] at h
          exact (ih _ _ tid h0 h).1 q hq
    · by_cases hne : r.thread_id ≠ ""
      · rw [if_pos hne] at h
        have := (ih _ _ tid h0 h).2
        rw [mapGet?_mapSet_other _ _ _ _ hrt] at this
        exact this
      · rw [if_neg hne] at h
        exact (ih _ _ tid h0 h).2

lemma gat_none (rows : List Row) (tid : String) (h0 : tid ≠ "")
    (h : mapGet? (get_all_tickets rows) tid = none) :
    ∀ r ∈ rows, r.thread_id ≠ tid :=
  (gatGo_none rows 2 [] tid h0 h).1

/-! ### The table invariant -/

/-- The invariant maintained by the engine: distinct (and non-empty)
thread ids across ticket rows, and every cached thread-id → row-number
entry pointing at a row that really carries that thread id. -/
def GoodState (es : EngineState) : Prop :=
  (es.tickets.map Row.thread_id).Nodup ∧
  (∀ r ∈ es.tickets, r.thread_id ≠ "") ∧
  (∀ p ∈ es.cache, (rowAt es.tickets p.2).map Row.thread_id = some p.1)

instance (es : EngineState) : Decidable (GoodState es) := by
  unfold GoodState; infer_instance

/-- Side conditions under which one effect preserves `GoodState`:
appended rows carry a thread id absent from the table, row overwrites
go through a valid cache entry for the same thread id, and a cache
replacement installs a true snapshot of the current table. -/
def EffOK (c : Conf) : Eff → Prop
  | .appendRow r => r.thread_id ≠ "" ∧ mapGet? (get_all_tickets c.es.tickets) r.thread_id = none
  | .writeRow i r => mapGet? c.es.cache r.thread_id = some i
  | .setCache m => m = get_all_tickets c.es.tickets
  | _ => True

def TraceOK : Conf → List Eff → Prop
  | _, [] => True
  | c, e :: rest => EffOK c e ∧ TraceOK (applyEff c e) rest

lemma applyEff_good (c : Conf) (e : Eff) (hg : GoodState c.es) (he : EffOK c e) :
    GoodState (applyEff c e).es := by
  obtain ⟨hnd, hne, hcache⟩ := hg
  cases e with
  | setCounter n => exact ⟨hnd, hne, hcache⟩
  | setLocalWm tid ts => exact ⟨hnd, hne, hcache⟩
  | updateLabels tid a r => exact ⟨hnd, hne, hcache⟩
  | addKnown e' => exact ⟨hnd, hne, hcache⟩
  | saveFile => exact ⟨hnd, hne, hcache⟩
  | refreshCache => exact ⟨hnd, hne, fun p hp => gat_valid c.es.tickets p hp⟩
  | setCache m =>
    refine ⟨hnd, hne, fun p hp => ?_⟩
    rw [EffOK] at he
    exact gat_valid c.es.tickets p (he ▸ hp)
  | appendRow r =>
    obtain ⟨hr0, hrnone⟩ := he
    have hnotin : ∀ q ∈ c.es.tickets, q.thread_id ≠ r.thread_id :=
      gat_none _ _ hr0 hrnone
    refine ⟨?_, ?_, ?_⟩
    · show ((c.es.tickets ++ [r]).map Row.thread_id).Nodup
      rw [List.map_append, List.nodup_append]
      refine ⟨hnd, List.nodup_singleton _, fun a ha => ?_⟩
      obtain ⟨q, hq, rfl⟩ := List.mem_map.mp ha
      simp only [List.map_cons, List.map_nil, List.mem_singleton]
      exact hnotin q hq
    · intro q hq
      rcases List.mem_append.mp hq with h | h
      · exact hne q h
      · rcases List.mem_singleton.mp h with rfl
        exact hr0
    · intro p hp
      have hv := hcache p hp
      have hlt : p.2 - 2 < c.es.tickets.length := by
        rcases ho : c.es.tickets[p.2 - 2]? with _ | q
        · rw [rowAt, ho] at hv; simp at hv
        · exact (List.getElem?_eq_some_iff.mp ho).1
      show ((c.es.tickets ++ [r])[p.2 - 2]?).map Row.thread_id = some p.1
      rw [List.getElem?_append_left hlt]
      exact hv
  | writeRow i r =>
    rw [EffOK] at he
    have hmem : (r.thread_id, i) ∈ c.es.cache := mapGet?_some_mem _ _ _ he
    have hv := hcache _ hmem
    rcases ho : c.es.tickets[i - 2]? with _ | old
    · rw [rowAt, ho] at hv; simp at hv
    · have holdtid : old.thread_id = r.thread_id := by
        rw [rowAt, ho] at hv; simpa using hv
      have hlt : i - 2 < c.es.tickets.length := (List.getElem?_eq_some_iff.mp ho).1
      have hmapeq : (c.es.tickets.set (i - 2) r).map Row.thread_id
          = c.es.tickets.map Row.thread_id := by
        rw [List.map_set]
        apply set_same
        rw [List.getElem?_map, ho]
        simp [holdtid]
      have holdmem : old ∈ c.es.tickets := by
        obtain ⟨hlt2, hget⟩ := List.getElem?_eq_some_iff.mp ho
        exact hget ▸ List.getElem_mem hlt2
      refine ⟨?_, ?_, ?_⟩
      · show ((c.es.tickets.set (i - 2) r).map Row.thread_id).Nodup
        rw [hmapeq]; exact hnd
      · intro q hq
        rcases List.mem_or_eq_of_mem_set hq with h | h
        · exact hne q h
        · rw [h, ← holdtid]
          exact hne old holdmem
      · intro p hp
        have hvp := hcache p hp
        by_cases hidx : p.2 - 2 = i - 2
        · show ((c.es.tickets.set (i - 2) r)[p.2 - 2]?).map Row.thread_id = some p.1
          rw [hidx, List.getElem?_set_self hlt]
          rw [rowAt, hidx, ho] at hvp
          simp at hvp ⊢
          rw [← holdtid]
          exact hvp
        · show ((c.es.tickets.set (i - 2) r)[p.2 - 2]?).map Row.thread_id = some p.1
          rw [List.getElem?_set_ne (fun hh => hidx hh.symm)]
          exact hvp

lemma traceOK_append (c : Conf) (t1 t2 : List Eff) :
    TraceOK c (t1 ++ t2) ↔ TraceOK c t1 ∧ TraceOK (runEffs c t1) t2 := by
  induction t1 generalizing c with
  | nil => simp [TraceOK, runEffs]
  | cons e rest ih =>
    show TraceOK c (e :: (rest ++ t2)) ↔ _
    rw [TraceOK, ih (applyEff c e)]
    constructor
    · rintro ⟨h1, h2, h3⟩
      exact ⟨⟨h1, h2⟩, h3⟩
    · rintro ⟨⟨h1, h2⟩, h3⟩
      exact ⟨h1, h2, h3⟩

lemma runEffs_cons (c : Conf) (e : Eff) (l : List Eff) :
    runEffs c (e :: l) = runEffs (applyEff c e) l := rfl

lemma runEffs_good (c : Conf) (tr : List Eff) (hg : GoodState c.es) (ht : TraceOK c tr) :
    GoodState (runEffs c tr).es := by
  induction tr generalizing c with
  | nil => exact hg
  | cons e rest ih =>
    rw [TraceOK] at ht
    rw [runEffs_cons]
    exact ih (applyEff c e) (applyEff_good c e hg ht.1) ht.2

lemma runEffs_take_good (c : Conf) (tr : List Eff) (hg : GoodState c.es)
    (ht : TraceOK c tr) : ∀ k, GoodState (runEffs c (tr.take k)).es := by
  induction tr generalizing c with
  | nil => intro k; simpa [runEffs] using hg
  | cons e rest ih =>
    intro k
    cases k with
    | zero => simpa [runEffs] using hg
    | succ k =>
      rw [TraceOK] at ht
      rw [List.take_succ_cons, runEffs_cons]
      exact ih (applyEff c e) (applyEff_good c e hg ht.1) ht.2 k

/-! ### Branch computations of `procThread` -/

lemma procThread_no_msg (admins : List String) (now : Nat) (c : Conf) (th : GThread)
    (hm : get_last_message th = none) : procThread admins now c th = [] := by
  simp [procThread, hm]

lemma procThread_gate (admins : List String) (now : Nat) (c : Conf) (th : GThread)
    (m : Msg) (hm : get_last_message th = some m)
    (hts : tsOf m ≤ wmGet c.wm th.id) : procThread admins now c th = [] := by
  simp [procThread, hm, hts]

lemma procThread_admin_new (admins : List String) (now : Nat) (c : Conf) (th : GThread)
    (m : Msg) (hm : get_last_message th = some m)
    (hts : wmGet c.wm th.id < tsOf m)
    (hnone : mapGet? c.es.cache th.id = none)
    (hadm : is_admin_email admins (fromOf m) = true) :
    procThread admins now c th = [.setLocalWm th.id (tsOf m)] := by
  have h1 : ¬ tsOf m ≤ wmGet c.wm th.id := Nat.not_le.mpr hts
  simp [procThread, hm, h1, hnone, hadm]

lemma procThread_guard (admins : List String) (now : Nat) (c : Conf) (th : GThread)
    (m : Msg) (hm : get_last_message th = some m)
    (hts : wmGet c.wm th.id < tsOf m)
    (hnone : mapGet? c.es.cache th.id = none)
    (hadm : is_admin_email admins (fromOf m) = false)
    (hfc : (mapGet? (get_all_tickets c.es.tickets) th.id).isSome = true) :
    procThread admins now c th = [.setCache (get_all_tickets c.es.tickets)] := by
  have h1 : ¬ tsOf m ≤ wmGet c.wm th.id := Nat.not_le.mpr hts
  simp [procThread, hm, h1, hnone, hadm, hfc]

lemma procThread_create (admins : List String) (now : Nat) (c : Conf) (th : GThread)
    (m : Msg) (hm : get_last_message th = some m)
    (hts : wmGet c.wm th.id < tsOf m)
    (hnone : mapGet? c.es.cache th.id = none)
    (hadm : is_admin_email admins (fromOf m) = false)
    (hfc : mapGet? (get_all_tickets c.es.tickets) th.id = none) :
    procThread admins now c th =
      [.setCounter (c.es.counter + 1), .setLocalWm th.id (tsOf m),
        .updateLabels th.id (labelsAdd (statusFor admins (fromOf m)))
          (labelsRem (statusFor admins (fromOf m)))]
      ++ (if is_new_sender_cached c.es.knownSenders (fromOf m) = true
          then [.addKnown (lowerStr (fromOf m))] else [])
      ++ [.appendRow (create_ticket_row now (ticketIdStr (c.es.counter + 1)) th.id
            (fromOf m) (subjOf m) (statusFor admins (fromOf m))
            (is_new_sender_cached c.es.knownSenders (fromOf m))),
          .refreshCache, .setLocalWm th.id (tsOf m)] := by
  have h1 : ¬ tsOf m ≤ wmGet c.wm th.id := Nat.not_le.mpr hts
  simp [procThread, hm, h1, hnone, hadm, hfc, get_next_ticket_id]

lemma procThread_update (admins : List String) (now : Nat) (c : Conf) (th : GThread)
    (m : Msg) (n : Nat) (hm : get_last_message th = some m)
    (hts : wmGet c.wm th.id < tsOf m)
    (hsome : mapGet? c.es.cache th.id = some n) :
    procThread admins now c th =
      [.updateLabels th.id (labelsAdd (statusFor admins (fromOf m)))
          (labelsRem (statusFor admins (fromOf m))),
        .writeRow n (create_ticket_row now (((rowAt c.es.tickets n).map Row.ticket_id).getD "")
          th.id (fromOf m) (subjOf m) (statusFor admins (fromOf m)) false),
        .setLocalWm th.id (tsOf m)] := by
  have h1 : ¬ tsOf m ≤ wmGet c.wm th.id := Nat.not_le.mpr hts
  simp [procThread, hm, h1, hsome]

lemma procThread_traceOK (admins : List String) (now : Nat) (c : Conf) (th : GThread)
    (hid : th.id ≠ "") :
    TraceOK c (procThread admins now c th) := by
  rcases hm : get_last_message th with _ | m
  · rw [procThread_no_msg admins now c th hm]; trivial
  · by_cases hts : tsOf m ≤ wmGet c.wm th.id
    · rw [procThread_gate admins now c th m hm hts]; trivial
    · have hts' : wmGet c.wm th.id < tsOf m := Nat.not_le.mp hts
      rcases hcc : mapGet? c.es.cache th.id with _ | n
      · cases hadm : is_admin_email admins (fromOf m) with
        | true =>
          rw [procThread_admin_new admins now c th m hm hts' hcc hadm]
          exact ⟨trivial, trivial⟩
        | false =>
          rcases hfc : mapGet? (get_all_tickets c.es.tickets) th.id with _ | k
          · rw [procThread_create admins now c th m hm hts' hcc hadm hfc]
            by_cases hnst : is_new_sender_cached c.es.knownSenders (fromOf m) = true
            · rw [if_pos hnst]
              exact ⟨trivial, trivial, trivial, trivial, ⟨hid, hfc⟩, trivial, trivial, trivial⟩
            · rw [if_neg hnst]
              exact ⟨trivial, trivial, trivial, ⟨hid, hfc⟩, trivial, trivial, trivial⟩
          · have hfc2 : (mapGet? (get_all_tickets c.es.tickets) th.id).isSome = true := by
              rw [hfc]; rfl
            rw [procThread_guard admins now c th m hm hts' hcc hadm hfc2]
            exact ⟨rfl, trivial⟩
      · rw [procThread_update admins now c th m n hm hts' hcc]
        exact ⟨trivial, hcc, trivial, trivial⟩

lemma procThreads_traceOK (admins : List String) (now : Nat) :
    ∀ (threads : List GThread) (c : Conf), (∀ th ∈ threads, th.id ≠ "") →
      TraceOK c (procThreads admins now c threads) := by
  intro threads
  induction threads with
  | nil => intro c _; trivial
  | cons th rest ih =>
    intro c hids
    show TraceOK c (procThread admins now c th
      ++ procThreads admins now (runEffs c (procThread admins now c th)) rest)
    rw [traceOK_append]
    exact ⟨procThread_traceOK admins now c th (hids th (List.mem_cons_self th rest)),
      ih (runEffs c (procThread admins now c th))
        (fun t ht => hids t (List.mem_cons_of_mem th ht))⟩

lemma dedupeGo_subset : ∀ (threads : List GThread) (seen : List String),
    ∀ t ∈ dedupeGo seen threads, t ∈ threads := by
  intro threads
  induction threads with
  | nil => intro seen t ht; simp [dedupeGo] at ht
  | cons th rest ih =>
    intro seen t ht
    rw [dedupeGo] at ht
    by_cases hs : th.id ∈ seen
    · rw [if_pos hs] at ht
      exact List.mem_cons_of_mem th (ih seen t ht)
    · rw [if_neg hs] at ht
      rcases List.mem_cons.mp ht with h | h
      · exact h ▸ List.mem_cons_self th rest
      · exact List.mem_cons_of_mem th (ih (th.id :: seen) t h)

lemma traceOK_bool_pre (c : Conf) (refresh : Bool) :
    TraceOK c (if refresh = true then [Eff.refreshCache] else []) := by
  cases refresh
  · trivial
  · exact ⟨trivial, trivial⟩

lemma traceOK_bool_save (c : Conf) (b : Bool) :
    TraceOK c (if b = true then [] else [Eff.saveFile]) := by
  cases b
  · exact ⟨trivial, trivial⟩
  · trivial

lemma cycleTrace_traceOK (admins : List String) (now : Nat) (refresh : Bool)
    (threads : List GThread) (es : EngineState)
    (hids : ∀ th ∈ threads, th.id ≠ "") :
    TraceOK ⟨es, es.fileState⟩ (cycleTrace admins now refresh threads es) := by
  rw [cycleTrace]
  rw [traceOK_append, traceOK_append]
  exact ⟨⟨traceOK_bool_pre _ refresh,
    procThreads_traceOK admins now (dedupe threads) _
      (fun t ht => hids t (dedupeGo_subset threads [] t ht))⟩,
    traceOK_bool_save _ (dedupe threads).isEmpty⟩

lemma runCyclePrefix_good (admins : List String) (es : EngineState) (ci : CycleIn)
    (hg : GoodState es) (hids : ∀ th ∈ ci.threads, th.id ≠ "") :
    GoodState (runCyclePrefix admins es ci) :=
  runEffs_take_good ⟨es, es.fileState⟩ _ hg
    (cycleTrace_traceOK admins ci.now ci.refresh ci.threads es hids) ci.cut

lemma runCycles_good (admins : List String) :
    ∀ (cycles : List CycleIn) (es : EngineState), GoodState es →
      (∀ ci ∈ cycles, ∀ th ∈ ci.threads, th.id ≠ "") →
      GoodState (runCycles admins es cycles) := by
  intro cycles
  induction cycles with
  | nil => intro es hg _; exact hg
  | cons ci rest ih =>
    intro es hg hids
    rw [runCycles]
    exact ih (runCyclePrefix admins es ci)
      (runCyclePrefix_good admins es ci hg (hids ci (List.mem_cons_self ci rest)))
      (fun cj hcj => hids cj (List.mem_cons_of_mem ci hcj))

/-- C1: over any sequence of reconciliation cycles — each of which may
see an arbitrary thread listing (duplicates included) and may be
interrupted after any number of atomic effects and retried — a table
that starts with at most one row per thread id (for example, an empty
one) keeps at most one Ticket row per thread_id, provided every listed
thread carries a (non-empty) provider id. -/
theorem no_duplicate_tickets (admins : List String) (es0 : EngineState)
    (cycles : List CycleIn) (h0 : GoodState es0)
    (hids : ∀ ci ∈ cycles, ∀ th ∈ ci.threads, th.id ≠ "") (tid : String) :
    ((runCycles admins es0 cycles).tickets.map Row.thread_id).count tid ≤ 1 :=
  List.nodup_iff_count_le_one.mp (runCycles_good admins cycles es0 h0 hids).1 tid

def exAdmins : List String := ["support-ticketana@he5.in"]

def exMsg1 : Msg := { internalDate := 5000, headers := [("From", "Alice <a@x>")] }

def exThread1 : GThread := { id := "t1", messages := [exMsg1] }

def exState0 : EngineState :=
  { tickets := [], counter := 0, cache := [], knownSenders := [], fileState := [] }

/-- Two cycles: the first sees `t1` listed twice and is interrupted
right after the row append (before the cache refresh and the state-file
save); the second retries the same thread to completion. -/
def exCycles : List CycleIn :=
  [{ now := 100, refresh := false, threads := [exThread1, exThread1], cut := 5 },
   { now := 101, refresh := false, threads := [exThread1], cut := 100 }]

example : (runCycles exAdmins exState0 exCycles).tickets.length = 1 := by decide

/-- Witness for `no_duplicate_tickets` on the concrete interrupted run. -/
theorem no_duplicate_tickets_witness :
    ((runCycles exAdmins exState0 exCycles).tickets.map Row.thread_id).count "t1" ≤ 1 :=
  no_duplicate_tickets exAdmins exState0 exCycles (by decide) (by decide) "t1"

/-- C5: a thread absent from the ticket map whose classified sender is
an admin produces, over a whole cycle, no row write and no label
mutation — only the watermark for that thread advances to the
classified timestamp. -/
theorem admin_new_suppression (admins : List String) (now : Nat) (es : EngineState)
    (th : GThread) (m : Msg) (hm : get_last_message th = some m)
    (hnone : mapGet? es.cache th.id = none)
    (hadm : is_admin_email admins (fromOf m) = true)
    (hwm : wmGet es.fileState th.id < tsOf m) :
    cycleTrace admins now false [th] es = [Eff.setLocalWm th.id (tsOf m), Eff.saveFile] ∧
    (runCycle admins now false [th] es).tickets = es.tickets ∧
    (runCycle admins now false [th] es).counter = es.counter ∧
    (runCycle admins now false [th] es).cache = es.cache ∧
    wmGet (runCycle admins now false [th] es).fileState th.id = tsOf m := by
  have htr : procThread admins now ⟨es, es.fileState⟩ th = [.setLocalWm th.id (tsOf m)] :=
    procThread_admin_new admins now ⟨es, es.fileState⟩ th m hm hwm hnone hadm
  have hct : cycleTrace admins now false [th] es
      = [Eff.setLocalWm th.id (tsOf m), Eff.saveFile] := by
    rw [cycleTrace]
    simp [dedupe, dedupeGo, procThreads, htr, runEffs]
  refine ⟨hct, ?_, ?_, ?_, ?_⟩ <;>
    simp [runCycle, hct, runEffs, applyEff, wmGet, mapGet?_mapSet_self]

/-- A message from the configured admin address (for witnesses). -/
def exMsgAdmin : Msg :=
  { internalDate := 7000, headers := [("From", "Support <support-ticketana@he5.in>")] }

/-- A brand-new thread whose only message is from the admin. -/
def exThreadAdmin : GThread := { id := "t9", messages := [exMsgAdmin] }

theorem admin_new_suppression_witness :
    cycleTrace exAdmins 100 false [exThreadAdmin] exState0
        = [Eff.setLocalWm "t9" 7, Eff.saveFile] ∧
    (runCycle exAdmins 100 false [exThreadAdmin] exState0).tickets = exState0.tickets ∧
    (runCycle exAdmins 100 false [exThreadAdmin] exState0).counter = exState0.counter ∧
    (runCycle exAdmins 100 false [exThreadAdmin] exState0).cache = exState0.cache ∧
    wmGet (runCycle exAdmins 100 false [exThreadAdmin] exState0).fileState "t9" = 7 :=
  admin_new_suppression exAdmins 100 exState0 exThreadAdmin exMsgAdmin
    (by decide) (by decide) (by decide) (by decide)

lemma row_status_eq (admins : List String) (now : Nat) (c : Conf) (th : GThread)
    (m : Msg) (r : Row) (hm : get_last_message th = some m)
    (hr : Eff.appendRow r ∈ procThread admins now c th ∨
      ∃ i, Eff.writeRow i r ∈ procThread admins now c th) :
    r.status = statusFor admins (fromOf m) := by
  by_cases hts : tsOf m ≤ wmGet c.wm th.id
  · rw [procThread_gate admins now c th m hm hts] at hr
    rcases hr with hr | ⟨i, hr⟩ <;> simp at hr
  · have hts' : wmGet c.wm th.id < tsOf m := Nat.not_le.mp hts
    rcases hcc : mapGet? c.es.cache th.id with _ | n
    · cases hadm : is_admin_email admins (fromOf m) with
      | true =>
        rw [procThread_admin_new admins now c th m hm hts' hcc hadm] at hr
        rcases hr with hr | ⟨i, hr⟩ <;> simp at hr
      | false =>
        rcases hfc : mapGet? (get_all_tickets c.es.tickets) th.id with _ | k
        · rw [procThread_create admins now c th m hm hts' hcc hadm hfc] at hr
          by_cases hnst : is_new_sender_cached c.es.knownSenders (fromOf m) = true
          · rw [if_pos hnst] at hr
            rcases hr with hr | ⟨i, hr⟩ <;> simp at hr
            rw [hr]
            simp [create_ticket_row]
          · rw [if_neg hnst] at hr
            rcases hr with hr | ⟨i, hr⟩ <;> simp at hr
            rw [hr]
            simp [create_ticket_row]
        · have hfc2 : (mapGet? (get_all_tickets c.es.tickets) th.id).isSome = true := by
            rw [hfc]; rfl
          rw [procThread_guard admins now c th m hm hts' hcc hadm hfc2] at hr
          rcases hr with hr | ⟨i, hr⟩ <;> simp at hr
    · rw [procThread_update admins now c th m n hm hts' hcc] at hr
      rcases hr with hr | ⟨i, hr⟩ <;> simp at hr
      rw [hr.2]
      simp [create_ticket_row]

/-- C4: every Ticket row written for a processed thread carries status
"Awaiting customer reply" when the classified last-message sender is an
Admin address and "Awaiting admin reply" when it is External. -/
theorem status_derivation (admins : List String) (now : Nat) (c : Conf) (th : GThread)
    (m : Msg) (r : Row) (hm : get_last_message th = some m)
    (hr : Eff.appendRow r ∈ procThread admins now c th ∨
      ∃ i, Eff.writeRow i r ∈ procThread admins now c th) :
    (is_admin_email admins (fromOf m) = true → r.status = "Awaiting customer reply") ∧
    (is_admin_email admins (fromOf m) = false → r.status = "Awaiting admin reply") := by
  have h := row_status_eq admins now c th m r hm hr
  constructor <;> intro ha <;> rw [h, statusFor, ha] <;> simp

def exConf0 : Conf := { es := exState0, wm := [] }

/-- An existing ticket row for thread `t2` (created earlier). -/
def exRowT2 : Row := create_ticket_row 50 "TCK-000001" "t2" "b@x" "s" "Awaiting admin reply" false

/-- Engine state holding `exRowT2` with a consistent cache and a
watermark of 3 for `t2`. -/
def exStateUpd : EngineState :=
  { tickets := [exRowT2], counter := 1, cache := [("t2", 2)],
    knownSenders := ["b@x"], fileState := [("t2", 3)] }

def exMsgT2 : Msg :=
  { internalDate := 9000, headers := [("From", "Support <support-ticketana@he5.in>")] }

def exThreadT2 : GThread := { id := "t2", messages := [exMsgT2] }

def exConfUpd : Conf := { es := exStateUpd, wm := exStateUpd.fileState }

/-- Witness for `status_derivation`: one External case (new thread from
`a@x`, appended row says "Awaiting admin reply") and one Admin case
(update of `t2` after an admin reply, written row says "Awaiting
customer reply"). -/
theorem status_derivation_witness :
    (create_ticket_row 100 "TCK-000001" "t1" "a@x" "No Subject"
        "Awaiting admin reply" true).status = "Awaiting admin reply" ∧
    (create_ticket_row 100 "TCK-000001" "t2" "support-ticketana@he5.in" "No Subject"
        "Awaiting customer reply" false).status = "Awaiting customer reply" :=
  ⟨(status_derivation exAdmins 100 exConf0 exThread1 exMsg1
      (create_ticket_row 100 "TCK-000001" "t1" "a@x" "No Subject"
        "Awaiting admin reply" true)
      (by decide) (Or.inl (by decide))).2 (by decide),
   (status_derivation exAdmins 100 exConfUpd exThreadT2 exMsgT2
      (create_ticket_row 100 "TCK-000001" "t2" "support-ticketana@he5.in" "No Subject"
        "Awaiting customer reply" false)
      (by decide) (Or.inr ⟨2, by decide⟩)).1 (by decide)⟩

def isRowWrite : Eff → Bool
  | .appendRow _ => true
  | .writeRow _ _ => true
  | _ => false

def isLabelOp : Eff → Bool
  | .updateLabels _ _ _ => true
  | _ => false

/-- A cycle whose only thread is gated by the watermark performs just
the state-file write and leaves the engine state unchanged. -/
lemma cycle_skip (admins : List String) (now : Nat) (es : EngineState)
    (th : GThread) (m : Msg) (hm : get_last_message th = some m)
    (hts : tsOf m ≤ wmGet es.fileState th.id) :
    cycleTrace admins now false [th] es = [Eff.saveFile] ∧
    runCycle admins now false [th] es = es := by
  have htr : procThread admins now ⟨es, es.fileState⟩ th = [] :=
    procThread_gate admins now ⟨es, es.fileState⟩ th m hm hts
  have hct : cycleTrace admins now false [th] es = [Eff.saveFile] := by
    rw [cycleTrace]
    simp [dedupe, dedupeGo, procThreads, htr, runEffs]
  refine ⟨hct, ?_⟩
  rw [runCycle, hct]
  rfl

/-- C2: feeding the same thread snapshot (same classified timestamp)
through two consecutive cycles mutates the row and the labels and
advances the watermark on the first cycle, and the second cycle
performs no row write, no label mutation and no state change at all
(its trace is just the no-op re-write of the unchanged state file).
Hypotheses: the snapshot is newer than the thread's watermark, the
in-memory ticket map is a true snapshot of the table, and the thread is
not an admin-initiated new thread (which would be suppressed). -/
theorem second_cycle_idempotent (admins : List String) (now1 now2 : Nat)
    (es : EngineState) (th : GThread) (m : Msg)
    (hm : get_last_message th = some m)
    (hcache : es.cache = get_all_tickets es.tickets)
    (hwm : wmGet es.fileState th.id < tsOf m)
    (hadm : mapGet? es.cache th.id = none → is_admin_email admins (fromOf m) = false) :
    (∃ e ∈ cycleTrace admins now1 false [th] es, isRowWrite e = true) ∧
    (∃ e ∈ cycleTrace admins now1 false [th] es, isLabelOp e = true) ∧
    wmGet (runCycle admins now1 false [th] es).fileState th.id = tsOf m ∧
    cycleTrace admins now2 false [th] (runCycle admins now1 false [th] es) =
      [Eff.saveFile] ∧
    runCycle admins now2 false [th] (runCycle admins now1 false [th] es) =
      runCycle admins now1 false [th] es := by
  have hmain : (∃ e ∈ cycleTrace admins now1 false [th] es, isRowWrite e = true) ∧
      (∃ e ∈ cycleTrace admins now1 false [th] es, isLabelOp e = true) ∧
      wmGet (runCycle admins now1 false [th] es).fileState th.id = tsOf m := by
    rcases hc : mapGet? es.cache th.id with _ | n
    · have hadm' := hadm hc
      have hfc : mapGet? (get_all_tickets es.tickets) th.id = none := by
        rw [← hcache]; exact hc
      have htr : procThread admins now1 ⟨es, es.fileState⟩ th
          = [.setCounter (es.counter + 1), .setLocalWm th.id (tsOf m),
              .updateLabels th.id (labelsAdd (statusFor admins (fromOf m)))
                (labelsRem (statusFor admins (fromOf m)))]
            ++ (if is_new_sender_cached es.knownSenders (fromOf m) = true
                then [.addKnown (lowerStr (fromOf m))] else [])
            ++ [.appendRow (create_ticket_row now1 (ticketIdStr (es.counter + 1)) th.id
                  (fromOf m) (subjOf m) (statusFor admins (fromOf m))
                  (is_new_sender_cached es.knownSenders (fromOf m))),
                .refreshCache, .setLocalWm th.id (tsOf m)] :=
        procThread_create admins now1 ⟨es, es.fileState⟩ th m hm hwm hc hadm' hfc
      have hct : cycleTrace admins now1 false [th] es
          = procThread admins now1 ⟨es, es.fileState⟩ th ++ [Eff.saveFile] := by
        rw [cycleTrace]
        simp [dedupe, dedupeGo, procThreads, runEffs]
      by_cases hnst : is_new_sender_cached es.knownSenders (fromOf m) = true
      · rw [if_pos hnst] at htr
        refine ⟨?_, ?_, ?_⟩
        · rw [hct, htr]; simp [isRowWrite]
        · rw [hct, htr]; simp [isLabelOp]
        · simp [runCycle, hct, htr, runEffs, applyEff, wmGet, mapGet?_mapSet_self]
      · rw [if_neg hnst] at htr
        refine ⟨?_, ?_, ?_⟩
        · rw [hct, htr]; simp [isRowWrite]
        · rw [hct, htr]; simp [isLabelOp]
        · simp [runCycle, hct, htr, runEffs, applyEff, wmGet, mapGet?_mapSet_self]
    · have htr : procThread admins now1 ⟨es, es.fileState⟩ th
          = [.updateLabels th.id (labelsAdd (statusFor admins (fromOf m)))
                (labelsRem (statusFor admins (fromOf m))),
              .writeRow n (create_ticket_row now1
                (((rowAt es.tickets n).map Row.ticket_id).getD "") th.id (fromOf m)
                (subjOf m) (statusFor admins (fromOf m)) false),
              .setLocalWm th.id (tsOf m)] :=
        procThread_update admins now1 ⟨es, es.fileState⟩ th m n hm hwm hc
      have hct : cycleTrace admins now1 false [th] es
          = procThread admins now1 ⟨es, es.fileState⟩ th ++ [Eff.saveFile] := by
        rw [cycleTrace]
        simp [dedupe, dedupeGo, procThreads, runEffs]
      refine ⟨?_, ?_, ?_⟩
      · rw [hct, htr]; simp [isRowWrite]
      · rw [hct, htr]; simp [isLabelOp]
      · simp [runCycle, hct, htr, runEffs, applyEff, wmGet, mapGet?_mapSet_self]
  obtain ⟨h1, h2, h3⟩ := hmain
  have hskip := cycle_skip admins now2 (runCycle admins now1 false [th] es) th m hm
    (le_of_eq h3.symm)
  exact ⟨h1, h2, h3, hskip.1, hskip.2⟩

/-- Witness for `second_cycle_idempotent` on a concrete new external
thread processed by two consecutive cycles. -/
theorem second_cycle_idempotent_witness :
    (∃ e ∈ cycleTrace exAdmins 100 false [exThread1] exState0, isRowWrite e = true) ∧
    (∃ e ∈ cycleTrace exAdmins 100 false [exThread1] exState0, isLabelOp e = true) ∧
    wmGet (runCycle exAdmins 100 false [exThread1] exState0).fileState "t1" = 5 ∧
    cycleTrace exAdmins 101 false [exThread1]
      (runCycle exAdmins 100 false [exThread1] exState0) = [Eff.saveFile] ∧
    runCycle exAdmins 101 false [exThread1]
        (runCycle exAdmins 100 false [exThread1] exState0)
      = runCycle exAdmins 100 false [exThread1] exState0 :=
  second_cycle_idempotent exAdmins 100 101 exState0 exThread1 exMsg1
    (by decide) (by decide) (by decide) (fun _ => by decide)

/-- The first cycle over `t1`, interrupted after two effects: the
counter write (id allocation) and the in-memory watermark record —
i.e. between id allocation and the row write. -/
def exCutCycle : CycleIn := { now := 100, refresh := false, threads := [exThread1], cut := 2 }

/-- C3 counterexample: after a cycle interrupted between id allocation
and the row write, the id was allocated (counter = 1) and no row was
written, but the durable watermark for `t1` is still 0 — the in-memory
record was lost with the cycle — so the retry does *not* see the thread
as watermarked and does *not* skip re-creating it: it performs a row
write and creates the ticket with the freshly allocated id
`TCK-000002`. -/
theorem watermark_retry_cex :
    (runCyclePrefix exAdmins exState0 exCutCycle).counter = 1 ∧
    (runCyclePrefix exAdmins exState0 exCutCycle).tickets = [] ∧
    wmGet (runCyclePrefix exAdmins exState0 exCutCycle).fileState "t1" = 0 ∧
    (∃ e ∈ cycleTrace exAdmins 101 false [exThread1]
        (runCyclePrefix exAdmins exState0 exCutCycle), isRowWrite e = true) ∧
    (runCycle exAdmins 101 false [exThread1]
        (runCyclePrefix exAdmins exState0 exCutCycle)).tickets.map Row.ticket_id
      = ["TCK-000002"] := by decide

lemma applyEff_fileState (c : Conf) (e : Eff) (h : e ≠ Eff.saveFile) :
    (applyEff c e).es.fileState = c.es.fileState := by
  cases e
  case saveFile => exact absurd rfl h
  all_goals rfl

lemma runEffs_fileState_no_save (c : Conf) (l : List Eff)
    (h : ∀ e ∈ l, e ≠ Eff.saveFile) : (runEffs c l).es.fileState = c.es.fileState := by
  induction l generalizing c with
  | nil => rfl
  | cons e rest ih =>
    rw [runEffs_cons, ih (applyEff c e) (fun x hx => h x (List.mem_cons_of_mem e hx)),
      applyEff_fileState c e (h e (List.mem_cons_self e rest))]

/-- C3 (amended): in the creation path the engine does record the
in-memory watermark strictly before appending the row; but the durable
(file) watermark is unchanged by *any* prefix of the thread's
processing — it is written only by the end-of-cycle `saveFile` — so an
interruption between id allocation and row write loses the watermark
and a retry re-creates the ticket with a fresh id (see
`watermark_retry_cex`); the duplicate row is prevented by the pre-create
re-check, not by the watermark. -/
theorem watermark_before_row_write (admins : List String) (now : Nat) (c : Conf)
    (th : GThread) (m : Msg) (hm : get_last_message th = some m)
    (hts : wmGet c.wm th.id < tsOf m)
    (hnone : mapGet? c.es.cache th.id = none)
    (hadm : is_admin_email admins (fromOf m) = false)
    (hfc : mapGet? (get_all_tickets c.es.tickets) th.id = none) :
    (∃ (k₁ k₂ : Nat) (r : Row), k₁ < k₂ ∧
      (procThread admins now c th)[k₁]? = some (Eff.setLocalWm th.id (tsOf m)) ∧
      (procThread admins now c th)[k₂]? = some (Eff.appendRow r) ∧
      r.thread_id = th.id) ∧
    (∀ k, (runEffs c ((procThread admins now c th).take k)).es.fileState
        = c.es.fileState) := by
  have htr := procThread_create admins now c th m hm hts hnone hadm hfc
  have hnosave : ∀ e ∈ procThread admins now c th, e ≠ Eff.saveFile := by
    rw [htr]
    intro e he hsave
    subst hsave
    by_cases hnst : is_new_sender_cached c.es.knownSenders (fromOf m) = true <;>
      [rw [if_pos hnst] at he; rw [if_neg hnst] at he] <;> simp at he
  refine ⟨?_, ?_⟩
  · rw [htr]
    by_cases hnst : is_new_sender_cached c.es.knownSenders (fromOf m) = true
    · rw [if_pos hnst]
      exact ⟨1, 4, _, by omega, rfl, rfl, rfl⟩
    · rw [if_neg hnst]
      exact ⟨1, 3, _, by omega, rfl, rfl, rfl⟩
  · intro k
    exact runEffs_fileState_no_save c _
      (fun e he => hnosave e (List.take_subset k _ he))

/-- Witness for `watermark_before_row_write` on the concrete new
external thread. -/
theorem watermark_before_row_write_witness :
    (∃ (k₁ k₂ : Nat) (r : Row), k₁ < k₂ ∧
      (procThread exAdmins 100 exConf0 exThread1)[k₁]? = some (Eff.setLocalWm "t1" 5) ∧
      (procThread exAdmins 100 exConf0 exThread1)[k₂]? = some (Eff.appendRow r) ∧
      r.thread_id = "t1") ∧
    (∀ k, (runEffs exConf0 ((procThread exAdmins 100 exConf0 exThread1).take k)).es.fileState
        = exConf0.es.fileState) :=
  watermark_before_row_write exAdmins 100 exConf0 exThread1 exMsg1
    (by decide) (by decide) (by decide) (by decide) (by decide)

/-- An existing ticket whose stored new-sender flag is "Yes". -/
def exRowYes : Row := create_ticket_row 50 "TCK-000001" "t3" "c@x" "s" "Awaiting admin reply" true

def exStateYes : EngineState :=
  { tickets := [exRowYes], counter := 1, cache := [("t3", 2)],
    knownSenders := ["c@x"], fileState := [("t3", 3)] }

def exThreadT3 : GThread :=
  { id := "t3", messages := [{ internalDate := 9000, headers := [("From", "Carol <c@x>")] }] }

/-- C7 counterexample: the update path rewrites the whole row with
`new_sender = False`, so a cycle that updates a ticket stored with flag
"Yes" leaves it reading "No" — the stored flag is *not* left unchanged
by later cycles. -/
theorem new_sender_flag_overwritten_cex :
    exStateYes.tickets.map Row.new_sender = ["Yes"] ∧
    (runCycle exAdmins 100 false [exThreadT3] exStateYes).tickets.map Row.new_sender
      = ["No"] := by decide

/-- C7 (amended): the new-sender check runs only at creation — a row
written by the update path always carries flag "No" (the code passes
`new_sender = False` there, overwriting whatever was stored), and a
sender already in the known-senders set is never re-flagged: any row
the cycle appends for such a sender also carries "No". -/
theorem new_sender_flag_amended (admins : List String) (now : Nat) (c : Conf)
    (th : GThread) (m : Msg) (hm : get_last_message th = some m) :
    (∀ (i : Nat) (r : Row), Eff.writeRow i r ∈ procThread admins now c th →
      r.new_sender = "No") ∧
    (lowerStr (fromOf m) ∈ c.es.knownSenders →
      ∀ r : Row, Eff.appendRow r ∈ procThread admins now c th → r.new_sender = "No") := by
  by_cases hts : tsOf m ≤ wmGet c.wm th.id
  · rw [procThread_gate admins now c th m hm hts]
    exact ⟨fun i r hr => absurd hr (List.not_mem_nil _),
      fun _ r hr => absurd hr (List.not_mem_nil _)⟩
  · have hts' : wmGet c.wm th.id < tsOf m := Nat.not_le.mp hts
    rcases hcc : mapGet? c.es.cache th.id with _ | n
    · cases hadm : is_admin_email admins (fromOf m) with
      | true =>
        rw [procThread_admin_new admins now c th m hm hts' hcc hadm]
        constructor
        · intro i r hr; simp at hr
        · intro _ r hr; simp at hr
      | false =>
        rcases hfc : mapGet? (get_all_tickets c.es.tickets) th.id with _ | k
        · rw [procThread_create admins now c th m hm hts' hcc hadm hfc]
          constructor
          · intro i r hr
            by_cases hnst : is_new_sender_cached c.es.knownSenders (fromOf m) = true <;>
              [rw [if_pos hnst] at hr; rw [if_neg hnst] at hr] <;> simp at hr
          · intro hknown r hr
            have hnst : is_new_sender_cached c.es.knownSenders (fromOf m) = false := by
              rw [is_new_sender_cached, decide_eq_false_iff_not]
              exact fun hno => hno hknown
            rw [hnst] at hr
            simp at hr
            rw [hr, create_ticket_row]
            simp
        · have hfc2 : (mapGet? (get_all_tickets c.es.tickets) th.id).isSome = true := by
            rw [hfc]; rfl
          rw [procThread_guard admins now c th m hm hts' hcc hadm hfc2]
          constructor
          · intro i r hr; simp at hr
          · intro _ r hr; simp at hr
    · rw [procThread_update admins now c th m n hm hts' hcc]
      constructor
      · intro i r hr
        simp at hr
        rw [hr.2, create_ticket_row]
        simp
      · intro _ r hr; simp at hr

/-- Witness for `new_sender_flag_amended`: the update of `t2` keeps
flag "No", and a sender (`a@x`) already known does not get a second
"Yes" on their second-ever thread. -/
def exStateKnown : EngineState :=
  { tickets := [], counter := 1, cache := [], knownSenders := ["a@x"], fileState := [] }

theorem new_sender_flag_amended_witness :
    (create_ticket_row 100 "TCK-000001" "t2" "support-ticketana@he5.in" "No Subject"
        "Awaiting customer reply" false).new_sender = "No" ∧
    (create_ticket_row 100 "TCK-000002" "t1" "a@x" "No Subject"
        "Awaiting admin reply" false).new_sender = "No" :=
  ⟨(new_sender_flag_amended exAdmins 100 exConfUpd exThreadT2 exMsgT2 (by decide)).1 2
      (create_ticket_row 100 "TCK-000001" "t2" "support-ticketana@he5.in" "No Subject"
        "Awaiting customer reply" false) (by decide),
   (new_sender_flag_amended exAdmins 100 ⟨exStateKnown, exStateKnown.fileState⟩ exThread1
      exMsg1 (by decide)).2 (by decide)
      (create_ticket_row 100 "TCK-000002" "t1" "a@x" "No Subject"
        "Awaiting admin reply" false) (by decide)⟩

end EmailTicket
